import Mathlib

/-!
Verification of the markdown-table assistant (`src/extension.js`).

The development shallowly embeds the two pure functions of the repository,
`generateMarkdownTable` and `formatMarkdownTable`, over Lean strings.
JavaScript string primitives (`trim`, `split`, `repeat`, `join`,
`parseInt`, `toLowerCase`) are modelled as executable functions on
`List Char` / `String`.  A JavaScript exception (e.g. `String.repeat`
with a negative count throwing `RangeError`) is modelled by `Option`:
`none` is a thrown exception propagating to the caller.
-/

namespace MdTable

/-- Whitespace test used by `String.prototype.trim`. -/
def isWs (c : Char) : Bool := c.isWhitespace

/-- Drop leading and trailing whitespace from a character list
(the semantics of `String.prototype.trim`). -/
def trimData (l : List Char) : List Char :=
  ((l.dropWhile isWs).reverse.dropWhile isWs).reverse

/-- `String.prototype.trim`. -/
def jsTrim (s : String) : String := String.mk (trimData s.data)

/-- `String.prototype.split` with a single-character separator:
`"".split(sep) = [""]`, `"|".split('|') = ["", ""]`, etc. -/
def splitData (sep : Char) : List Char → List (List Char)
  | [] => [[]]
  | c :: cs =>
    if c = sep then [] :: splitData sep cs
    else
      match splitData sep cs with
      | t :: ts => (c :: t) :: ts
      | [] => [[c]]

/-- `String.prototype.split` on strings. -/
def jsSplit (s : String) (sep : Char) : List String :=
  (splitData sep s.data).map String.mk

/-- `String.prototype.repeat`: throws `RangeError` (modelled as `none`)
on a negative count. -/
def jsRepeat (s : String) (n : Int) : Option String :=
  if n < 0 then none
  else some (String.mk (List.flatten (List.replicate n.toNat s.data)))

/-- `Array.prototype.join` with a separator string. -/
def jsJoin (sep : String) : List String → String
  | [] => ""
  | [a] => a
  | a :: b :: rest => a ++ sep ++ jsJoin sep (b :: rest)

/-- Decimal digit test for `parseInt`. -/
def isDigitCh (c : Char) : Bool := '0' ≤ c && c ≤ '9'

/-- `parseInt(x)` (radix 10, as applied to the user-supplied count
strings): skip leading whitespace, read an optional sign, then the
longest decimal-digit prefix; `NaN` (modelled as `none`) if there is
no digit. -/
def jsParseInt (s : String) : Option Int :=
  let l := s.data.dropWhile isWs
  let signAndRest : Int × List Char :=
    match l with
    | '-' :: t => (-1, t)
    | '+' :: t => (1, t)
    | t => (1, t)
  let digits := signAndRest.2.takeWhile isDigitCh
  if digits.isEmpty then none
  else some (signAndRest.1 *
    (digits.foldl (fun acc c => acc * 10 + (c.toNat - '0'.toNat)) 0 : Nat))

/-- `Math.max(1, parseInt(x) || 2)` applied to an optional input string:
the effective row/column count of the generator (`extension.js` lines
59-60).  A missing input (`none`) takes the JavaScript default
parameter `2`, which `parseInt` turns back into `2`.  `parseInt(x) || 2`
replaces `NaN` and the falsy `0` by `2`; every other integer, negative
ones included, is kept and then clamped from below by `Math.max(1, ·)`. -/
def effCount (o : Option String) : Nat :=
  (max 1 (match jsParseInt (o.getD "2") with
          | none => 2
          | some n => if n = 0 then 2 else n)).toNat

/-- `String.prototype.toLowerCase` (character-wise lowering). -/
def jsToLower (s : String) : String := String.mk (s.data.map Char.toLower)

/-- The per-column alignment marker chosen by the generator's `switch`
on `alignment.toLowerCase()`. -/
def alignCharOf (alignment : String) : String :=
  if jsToLower alignment = "left" then ":---"
  else if jsToLower alignment = "right" then "---:"
  else ":---:"

/-- One generated row: a leading `|`, then `cols` copies of the segment
(`" |"` for header/data rows, `" :---: |"`-style for the separator row),
without the terminating newline. -/
def genLine (cols : Nat) (seg : String) : String :=
  "|" ++ String.mk (List.flatten (List.replicate cols seg.data))

/-- `generateMarkdownTable(rows, cols, alignment)` (`extension.js`
lines 57-104).  The three arguments come from `showInputBox` and may be
absent (`none` = JavaScript `undefined`, which selects the default
parameter values `2`, `2`, `'center'`). -/
def generateMarkdownTable (rowsIn colsIn alignIn : Option String) : String :=
  let rows := effCount rowsIn
  let cols := effCount colsIn
  let alignChar := alignCharOf (alignIn.getD "center")
  (genLine cols " |" ++ "\n")
    ++ (genLine cols (" " ++ alignChar ++ " |") ++ "\n")
    ++ String.mk (List.flatten (List.replicate (rows - 1) (genLine cols " |" ++ "\n").data))

/-- Column alignment variants inferred from the separator row. -/
inductive Align where
  | left
  | center
  | right
deriving DecidableEq

/-- All characters are dashes. -/
def isDashes (l : List Char) : Bool := l.all (fun c => c = '-')

/-- The regular expression test `/^:-+:$/.test(cell)`: a colon, one or
more dashes, a colon. -/
def matchCenter (s : String) : Bool :=
  (s.data.head? == some ':') && (s.data.getLast? == some ':')
    && isDashes (s.data.drop 1).dropLast && decide (3 ≤ s.data.length)

/-- The regular expression test `/^:-+$/.test(cell)`: a colon followed
by one or more dashes. -/
def matchLeft (s : String) : Bool :=
  (s.data.head? == some ':') && isDashes (s.data.drop 1)
    && decide (2 ≤ s.data.length)

/-- The regular expression test `/^-+:$/.test(cell)`. -/
def matchRight (s : String) : Bool :=
  (s.data.getLast? == some ':') && isDashes s.data.dropLast && decide (2 ≤ s.data.length)

/-- Alignment inference from one separator-row cell (`extension.js`
lines 168-173): the three regex tests in their source order, with
`left` as the fallback. -/
def inferAlign (cell : String) : Align :=
  if matchCenter cell then Align.center
  else if matchLeft cell then Align.left
  else if matchRight cell then Align.right
  else Align.left

/-- `line.trim().split('|').map(cell => cell.trim())` (line 150). -/
def parseRow (line : String) : List String :=
  (jsSplit (jsTrim line) '|').map jsTrim

/-- `if (row[0] === '') row.shift()` (line 154): drop a leading empty
cell produced by a leading pipe. -/
def dropHeadEmpty (row : List String) : List String :=
  match row with
  | "" :: rest => rest
  | _ => row

/-- `if (row[row.length - 1] === '') row.pop()` (line 155): drop a
trailing empty cell produced by a trailing pipe. -/
def dropTailEmpty (r : List String) : List String :=
  match r.getLast? with
  | some "" => r.dropLast
  | _ => r

/-- Removal of the leading/trailing empty cells produced by framing
pipes (`extension.js` lines 153-157). -/
def cleanRow (row : List String) : List String :=
  dropTailEmpty (dropHeadEmpty row)

/-- `markdown.trim().split('\n')` (line 146). -/
def tableLines (md : String) : List String := jsSplit (jsTrim md) '\n'

/-- The cleaned cell grid of the input (lines 150-157). -/
def cleanedRowsOf (md : String) : List (List String) :=
  (tableLines md).map (fun l => cleanRow (parseRow l))

/-- `cleanedRows[0].length` (line 160). -/
def colCountOf (md : String) : Nat := ((cleanedRowsOf md).headD []).length

/-- `cleanedRows.every(row => row.length === colCount)` (line 161). -/
def tableValid (md : String) : Bool :=
  (cleanedRowsOf md).all (fun r => r.length = colCountOf md)

/-- The inferred per-column alignments, read off row 1 (lines 168-173). -/
def alignmentsOf (md : String) : List Align :=
  ((cleanedRowsOf md).getD 1 []).map inferAlign

/-- `Math.max(...cleanedRows.map(row => row[col].length))` (line 178). -/
def colWidthOf (md : String) (col : Nat) : Nat :=
  ((cleanedRowsOf md).map (fun r => (r.getD col "").length)).foldl max 0

/-- The `colWidths` array (lines 176-180). -/
def colWidthsOf (md : String) : List Nat :=
  (List.range (colCountOf md)).map (colWidthOf md)

/-- `padCell` (lines 183-188): centre a cell in `width` characters,
extra space going to the right.  The width difference is computed in
`Int` as in JavaScript; a negative repeat count would throw. -/
def padCell (text : String) (width : Nat) : Option String :=
  let space : Int := (width : Int) - (text.length : Int)
  let left : Int := Int.fdiv space 2
  let right : Int := space - left
  match jsRepeat " " left, jsRepeat " " right with
  | some l, some r => some (l ++ text ++ r)
  | _, _ => none

/-- The rebuilt separator-row cell (lines 193-201), verbatim from the
source: `left`/`right` dash counts summing to `len - 1`, flanked by
`':'` exactly when the alignment is `left` (first edge) or `right`
(second edge). -/
def sepCell (a : Align) (len : Nat) : Option String :=
  let left : Int :=
    if a = Align.right then (len : Int) - 1
    else if a = Align.center then Int.fdiv ((len : Int) - 1) 2
    else 0
  let right : Int := (len : Int) - 1 - left
  match jsRepeat "-" left, jsRepeat "-" right with
  | some l, some r =>
      some ((if a = Align.left then ":" else "-") ++ l
            ++ (if a = Align.right then ":" else "-") ++ r)
  | _, _ => none

/-- Index-aware `Array.prototype.map` whose body may throw (`none`);
the first exception aborts the whole map, as in JavaScript. -/
def mapIdxOpt (f : Nat → α → Option β) : Nat → List α → Option (List β)
  | _, [] => some []
  | i, a :: as =>
    match f i a, mapIdxOpt f (i + 1) as with
    | some b, some bs => some (b :: bs)
    | _, _ => none

/-- One cell of the rebuilt table (lines 192-204): the separator row
(index 1) is rebuilt by `sepCell`, every other row is centre-padded. -/
def renderCell (md : String) (rowIndex i : Nat) (cell : String) : Option String :=
  if rowIndex = 1 then
    sepCell ((alignmentsOf md).getD i Align.left) ((colWidthsOf md).getD i 0)
  else
    padCell cell ((colWidthsOf md).getD i 0)

/-- One rebuilt row, `'| ' + cells.join(' | ') + ' |'` (lines 191-205). -/
def renderRow (md : String) (rowIndex : Nat) (row : List String) : Option String :=
  (mapIdxOpt (renderCell md rowIndex) 0 row).map
    (fun cells => "| " ++ jsJoin " | " cells ++ " |")

/-- `formatMarkdownTable` (`extension.js` lines 145-209).  `some s` is a
normal return of `s`; `none` is a thrown exception. -/
def formatMarkdownTable (md : String) : Option String :=
  if (tableLines md).length < 2 then some md
  else if tableValid md = false then some md
  else (mapIdxOpt (renderRow md) 0 (cleanedRowsOf md)).map (jsJoin "\n")

/-- Whether the call logs the "inconsistent column counts" diagnostic
(line 163): validation is reached (at least 2 lines) and fails. -/
def formatDiag (md : String) : Bool :=
  decide (2 ≤ (tableLines md).length) && !(tableValid md)

/-- The pipe-delimited cell segments of one rendered line: everything
strictly between consecutive `'|'` characters, discarding the text
before the first pipe and after the last one. -/
def cellSegs (line : String) : List String :=
  ((jsSplit line '|').drop 1).dropLast

/-- The language of `/^:-+:$/`, stated directly: a colon, `n ≥ 1`
dashes, a colon. -/
def centerPat (s : String) : Prop :=
  ∃ n : Nat, 1 ≤ n ∧ s.data = ':' :: (List.replicate n '-' ++ [':'])

/-- The language of `/^:-+$/`: a colon followed by `n ≥ 1` dashes. -/
def leftPat (s : String) : Prop :=
  ∃ n : Nat, 1 ≤ n ∧ s.data = ':' :: List.replicate n '-'

/-- The language of `/^-+:$/`: `n ≥ 1` dashes followed by a colon. -/
def rightPat (s : String) : Prop :=
  ∃ n : Nat, 1 ≤ n ∧ s.data = List.replicate n '-' ++ [':']

/-- The spec's ordered classification of one separator-row cell:
center if it is in the language of `^:-+:$`; otherwise left if in
`^:-+$`; otherwise right if in `^-+:$`; otherwise left by default. -/
def alignSpec (s : String) (a : Align) : Prop :=
  (centerPat s ∧ a = Align.center) ∨
  (¬ centerPat s ∧ leftPat s ∧ a = Align.left) ∨
  (¬ centerPat s ∧ ¬ leftPat s ∧ rightPat s ∧ a = Align.right) ∨
  (¬ centerPat s ∧ ¬ leftPat s ∧ ¬ rightPat s ∧ a = Align.left)

/-- The generator's output, decomposed into its rows: a header line, a
separator line, and `rows - 1` data lines, each later terminated with
a newline. -/
def genTableLines (rows cols : Nat) (alignment : String) : List String :=
  genLine cols " |"
    :: genLine cols (" " ++ alignCharOf alignment ++ " |")
    :: List.replicate (rows - 1) (genLine cols " |")

end MdTable

namespace MdTable

/-- C1: the spec says each rebuilt separator cell has rendered length
exactly `len`, with `':'` at the left edge for left-or-center columns
and `':'` at the right edge for right-or-center columns.  The code
(lines 196-201) emits `edge + left dashes + edge + right dashes` with
`left + right = len - 1`, i.e. length `len + 1`, and its edge ternaries
test only `'left'` (first edge) and only `'right'` (second edge), so a
center column is rebuilt as bare dashes with no colon at all —
contradicting the function's own doc comment "It preserves alignment
indicators". -/
theorem C1_separator_cell_bug :
    alignmentsOf "|a|b|\n|:--:|---:|\n|1|2|" = [Align.center, Align.right] ∧
    colWidthsOf "|a|b|\n|:--:|---:|\n|1|2|" = [4, 4] ∧
    formatMarkdownTable "|a|b|\n|:--:|---:|\n|1|2|"
      = some "|  a   |  b   |\n| ----- | ----: |\n|  1   |  2   |" ∧
    sepCell Align.center 4 = some "-----" ∧
    ("-----" : String).length ≠ 4 ∧
    (':' ∈ "-----".data → False) ∧
    sepCell Align.right 4 = some "----:" ∧
    ("----:" : String).length ≠ 4 := by
  decide

/-- C2: the spec says every rendered row's pipe-delimited segment for
column `i` has identical character length.  Because the rebuilt
separator cell is one character longer than the column width, the
separator row's segments are longer than the header/data segments. -/
theorem C2_nonuniform_segments :
    formatMarkdownTable "|a|bb|\n|---|---|\n|1|22|"
      = some "|  a  | bb  |\n| :--- | :--- |\n|  1  | 22  |" ∧
    (jsSplit "|  a  | bb  |\n| :--- | :--- |\n|  1  | 22  |" '\n').map
        (fun l => (cellSegs l).map String.length) = [[5, 5], [6, 6], [5, 5]] ∧
    ((cellSegs "|  a  | bb  |").getD 0 "").length
      ≠ ((cellSegs "| :--- | :--- |").getD 0 "").length := by
  decide

/-- C3: the spec says `format` is idempotent on valid tables and that
re-formatting changes only whitespace padding, never cell content.  In
the code each pass rebuilds every separator cell one character longer
than the current column width, so the separator cells (and hence the
column widths) grow on every pass and a second `format` yields a
different string with different separator cell text. -/
theorem C3_not_idempotent :
    formatMarkdownTable "|a|bb|\n|---|---|\n|1|22|"
      = some "|  a  | bb  |\n| :--- | :--- |\n|  1  | 22  |" ∧
    formatMarkdownTable "|  a  | bb  |\n| :--- | :--- |\n|  1  | 22  |"
      = some "|  a   |  bb  |\n| :---- | :---- |\n|  1   |  22  |" ∧
    "|  a  | bb  |\n| :--- | :--- |\n|  1  | 22  |"
      ≠ "|  a   |  bb  |\n| :---- | :---- |\n|  1   |  22  |" ∧
    (cleanedRowsOf "|  a  | bb  |\n| :--- | :--- |\n|  1  | 22  |").getD 1 []
      = [":---", ":---"] ∧
    (cleanedRowsOf "|  a   |  bb  |\n| :---- | :---- |\n|  1   |  22  |").getD 1 []
      = [":----", ":----"] := by
  decide

/-- C8 counterexample: the claim says every non-positive count is
replaced by the default 2, but `parseInt("-3") = -3` is truthy in
JavaScript, so `parseInt(rows) || 2` keeps it and `Math.max(1, -3)`
clamps it to 1, not 2: the generator emits a 2-line table (no data
row) instead of the 3-line table the claim's normalization implies. -/
theorem C8_counterexample :
    jsParseInt "-3" = some (-3) ∧
    effCount (some "-3") = 1 ∧
    effCount (some "-3") ≠ 2 ∧
    generateMarkdownTable (some "-3") (some "2") (some "center")
      = "| | |\n| :---: | :---: |\n" := by
  decide

/-- C9 counterexample: the claim says `format` never throws, but on the
structurally valid input `"||\n||"` (one column whose cells are all
empty, computed width 0) the separator rebuild computes a dash count of
`0 - 1 - 0 = -1` and `'-'.repeat(-1)` throws a `RangeError`, modelled
here as `none`. -/
theorem C9_counterexample :
    tableValid "||\n||" = true ∧
    colWidthOf "||\n||" 0 = 0 ∧
    formatMarkdownTable "||\n||" = none := by
  decide

theorem splitData_ne_nil (sep : Char) (l : List Char) : splitData sep l ≠ [] := by
  cases l with
  | nil => simp [splitData]
  | cons c cs =>
    simp only [splitData]
    split
    · simp
    · split <;> simp

theorem tableLines_ne_nil (md : String) : tableLines md ≠ [] := by
  have h := splitData_ne_nil '\n' (jsTrim md).data
  simp only [tableLines, jsSplit, ne_eq, List.map_eq_nil_iff]
  exact h

theorem cleanedRowsOf_length (md : String) :
    (cleanedRowsOf md).length = (tableLines md).length := by
  simp [cleanedRowsOf]

theorem cleanedRowsOf_ne_nil (md : String) : cleanedRowsOf md ≠ [] := by
  simp only [cleanedRowsOf, ne_eq, List.map_eq_nil_iff]
  exact tableLines_ne_nil md

theorem le_foldl_max (l : List Nat) (a : Nat) : a ≤ l.foldl max a := by
  induction l generalizing a with
  | nil => simp
  | cons x xs ih => exact le_trans (le_max_left a x) (ih (max a x))

theorem foldl_max_le {l : List Nat} (x : Nat) (hx : x ∈ l) (a : Nat) :
    x ≤ l.foldl max a := by
  induction l generalizing a with
  | nil => cases hx
  | cons y ys ih =>
    simp only [List.foldl_cons]
    rcases List.mem_cons.mp hx with h | h
    · subst h
      exact le_trans (le_max_right a x) (le_foldl_max ys (max a x))
    · exact ih h (max a y)

theorem foldl_max_cases (l : List Nat) (a : Nat) :
    l.foldl max a = a ∨ l.foldl max a ∈ l := by
  induction l generalizing a with
  | nil => exact Or.inl rfl
  | cons x xs ih =>
    simp only [List.foldl_cons]
    rcases ih (max a x) with h | h
    · rcases max_choice a x with h1 | h1
      · exact Or.inl (by rw [h, h1])
      · exact Or.inr (by rw [h, h1]; exact List.mem_cons_self x xs)
    · exact Or.inr (List.mem_cons_of_mem x h)

/-- C4: whenever some cleaned row's cell count differs from row 0's,
`format` logs the "inconsistent column counts" diagnostic and returns
the original input string verbatim. -/
theorem C4_invalid_passthrough (md : String)
    (h : ∃ row ∈ cleanedRowsOf md, row.length ≠ colCountOf md) :
    formatMarkdownTable md = some md ∧ formatDiag md = true := by
  have hval : tableValid md = false := by
    unfold tableValid
    rw [List.all_eq_false]
    obtain ⟨row, hrow, hne⟩ := h
    exact ⟨row, hrow, by simpa using hne⟩
  have hlen : 2 ≤ (tableLines md).length := by
    by_contra hlt
    push_neg at hlt
    have hpos : 0 < (tableLines md).length :=
      List.length_pos.mpr (tableLines_ne_nil md)
    have h1 : (cleanedRowsOf md).length = 1 := by
      rw [cleanedRowsOf_length]; omega
    obtain ⟨r, hr⟩ := List.length_eq_one.mp h1
    obtain ⟨row, hrow, hne⟩ := h
    rw [hr] at hrow
    have hrr : row = r := by simpa using hrow
    subst hrr
    apply hne
    unfold colCountOf
    rw [hr]
    rfl
  refine ⟨?_, ?_⟩
  · unfold formatMarkdownTable
    rw [if_neg (by omega), if_pos hval]
  · simp [formatDiag, hval, hlen]

/-- Witness for C4 at the spec's own example input. -/
theorem C4_invalid_passthrough_witness :
    (∃ row ∈ cleanedRowsOf "| a | b |\n|---|\n| 1 | 2 | 3 |",
        row.length ≠ colCountOf "| a | b |\n|---|\n| 1 | 2 | 3 |") ∧
    (formatMarkdownTable "| a | b |\n|---|\n| 1 | 2 | 3 |"
        = some "| a | b |\n|---|\n| 1 | 2 | 3 |" ∧
     formatDiag "| a | b |\n|---|\n| 1 | 2 | 3 |" = true) :=
  ⟨by decide, C4_invalid_passthrough "| a | b |\n|---|\n| 1 | 2 | 3 |" (by decide)⟩

/-- C5: for a valid table and an in-range column index, the computed
column width is the maximum cell-text length in that column over all
cleaned rows (the separator row included): it bounds every cell of the
column and is attained by some row. -/
theorem C5_width_is_column_max (md : String) (col : Nat)
    (hv : tableValid md = true) (hcol : col < colCountOf md) :
    (∀ row ∈ cleanedRowsOf md, (row.getD col "").length ≤ colWidthOf md col) ∧
    (∃ row ∈ cleanedRowsOf md, (row.getD col "").length = colWidthOf md col) := by
  have _ := hv
  have _ := hcol
  constructor
  · intro row hrow
    unfold colWidthOf
    exact foldl_max_le _ (List.mem_map_of_mem
      (fun r => (r.getD col "").length) hrow) 0
  · rcases foldl_max_cases
        ((cleanedRowsOf md).map (fun r => (r.getD col "").length)) 0 with h | h
    · obtain ⟨r0, hr0⟩ := List.exists_mem_of_ne_nil _ (cleanedRowsOf_ne_nil md)
      refine ⟨r0, hr0, ?_⟩
      have hle := foldl_max_le _ (List.mem_map_of_mem
        (fun r => (r.getD col "").length) hr0) 0
      have hle2 : (r0.getD col "").length ≤ 0 := by rw [h] at hle; exact hle
      unfold colWidthOf
      rw [h]
      omega
    · obtain ⟨row, hrow, heq⟩ := List.mem_map.mp h
      exact ⟨row, hrow, heq⟩

/-- Witness for C5 at a concrete valid table. -/
theorem C5_width_is_column_max_witness :
    (tableValid "|a|bb|\n|---|---|\n|1|22|" = true) ∧
    (0 < colCountOf "|a|bb|\n|---|---|\n|1|22|") ∧
    ((∀ row ∈ cleanedRowsOf "|a|bb|\n|---|---|\n|1|22|",
        (row.getD 0 "").length ≤ colWidthOf "|a|bb|\n|---|---|\n|1|22|" 0) ∧
     (∃ row ∈ cleanedRowsOf "|a|bb|\n|---|---|\n|1|22|",
        (row.getD 0 "").length = colWidthOf "|a|bb|\n|---|---|\n|1|22|" 0)) :=
  ⟨by decide, by decide,
    C5_width_is_column_max "|a|bb|\n|---|---|\n|1|22|" 0 (by decide) (by decide)⟩

/-- C8 (amended): the generator's counts are parsed as integers; a
non-numeric, missing, or zero value falls back to the default 2, but a
negative parsed value is kept (JavaScript `||` only tests falsiness)
and then clamped to 1 by `Math.max`; the effective count is always at
least 1. -/
theorem C8_amended_normalization (o : Option String) :
    1 ≤ effCount o ∧
    (jsParseInt (o.getD "2") = none → effCount o = 2) ∧
    (jsParseInt (o.getD "2") = some 0 → effCount o = 2) ∧
    (∀ n : Int, jsParseInt (o.getD "2") = some n → n < 0 → effCount o = 1) ∧
    (∀ n : Int, jsParseInt (o.getD "2") = some n → 1 ≤ n → effCount o = n.toNat) := by
  refine ⟨?_, ?_, ?_, ?_, ?_⟩
  · unfold effCount
    have h1 := le_max_left (1 : Int)
      (match jsParseInt (o.getD "2") with
       | none => 2
       | some n => if n = 0 then 2 else n)
    omega
  · intro h
    simp only [effCount, h]
    decide
  · intro h
    simp only [effCount, h]
    decide
  · intro n h hn
    simp only [effCount, h]
    rw [if_neg (by omega)]
    rw [max_eq_left (by omega)]
    decide
  · intro n h hn
    simp only [effCount, h]
    rw [if_neg (by omega)]
    rw [max_eq_right (by omega)]

/-- Witness for C8 (amended) at concrete generator inputs. -/
theorem C8_amended_normalization_witness :
    effCount (some "abc") = 2 ∧ effCount (some "0") = 2 ∧
    effCount (some "-3") = 1 ∧ effCount (some "7") = 7 ∧
    1 ≤ effCount none :=
  ⟨(C8_amended_normalization (some "abc")).2.1 (by decide),
   (C8_amended_normalization (some "0")).2.2.1 (by decide),
   (C8_amended_normalization (some "-3")).2.2.2.1 (-3) (by decide) (by decide),
   (C8_amended_normalization (some "7")).2.2.2.2 7 (by decide) (by decide),
   (C8_amended_normalization none).1⟩
theorem getLast?_cons_ne_nil (a : Char) (l : List Char) (h : l ≠ []) :
    (a :: l).getLast? = l.getLast? := by
  cases l with
  | nil => exact absurd rfl h
  | cons b t => rfl

theorem isDashes_iff (l : List Char) :
    isDashes l = true ↔ l = List.replicate l.length '-' := by
  rw [List.eq_replicate_iff]
  simp [isDashes, List.all_eq_true]

theorem isDashes_replicate (n : Nat) : isDashes (List.replicate n '-') = true := by
  simp [isDashes, List.all_eq_true, List.mem_replicate]

theorem matchCenter_iff (s : String) : matchCenter s = true ↔ centerPat s := by
  unfold matchCenter centerPat
  constructor
  · intro h
    simp only [Bool.and_eq_true, beq_iff_eq, decide_eq_true_eq] at h
    obtain ⟨⟨⟨hhead, hlast⟩, hdash⟩, hlen⟩ := h
    rcases hd : s.data with _ | ⟨c, t⟩
    · rw [hd] at hhead; simp at hhead
    · rw [hd] at hhead hlast hdash hlen
      simp only [List.head?_cons, Option.some.injEq] at hhead
      subst hhead
      have ht : t ≠ [] := by
        intro h0; rw [h0] at hlen; simp at hlen
      have hlast' : t.getLast? = some ':' := by
        rw [getLast?_cons_ne_nil ':' t ht] at hlast; exact hlast
      have hgl : t.getLast ht = ':' := by
        rw [List.getLast?_eq_getLast t ht] at hlast'
        exact Option.some.inj hlast'
      have hsplit : t.dropLast ++ [':'] = t := by
        rw [← hgl]; exact List.dropLast_append_getLast ht
      have hdash' : t.dropLast = List.replicate t.dropLast.length '-' := by
        rw [← isDashes_iff]
        simpa using hdash
      refine ⟨t.dropLast.length, ?_, ?_⟩
      · have := List.length_dropLast t
        simp only [List.length_cons] at hlen
        omega
      · conv_lhs => rw [← hsplit]
        rw [← hdash']
  · rintro ⟨n, hn, hdata⟩
    simp only [Bool.and_eq_true, beq_iff_eq, decide_eq_true_eq]
    rw [hdata]
    refine ⟨⟨⟨by simp, ?_⟩, ?_⟩, ?_⟩
    · rw [show ':' :: (List.replicate n '-' ++ [':'])
            = (':' :: List.replicate n '-') ++ [':'] by simp]
      exact List.getLast?_concat _
    · have : ((':' :: (List.replicate n '-' ++ [':'])).drop 1).dropLast
          = List.replicate n '-' := by
        simp
      rw [this]
      exact isDashes_replicate n
    · simp; omega

theorem matchLeft_iff (s : String) : matchLeft s = true ↔ leftPat s := by
  unfold matchLeft leftPat
  constructor
  · intro h
    simp only [Bool.and_eq_true, beq_iff_eq, decide_eq_true_eq] at h
    obtain ⟨⟨hhead, hdash⟩, hlen⟩ := h
    rcases hd : s.data with _ | ⟨c, t⟩
    · rw [hd] at hhead; simp at hhead
    · rw [hd] at hhead hdash hlen
      simp only [List.head?_cons, Option.some.injEq] at hhead
      subst hhead
      have hdash' : t = List.replicate t.length '-' := by
        rw [← isDashes_iff]
        simpa using hdash
      refine ⟨t.length, ?_, ?_⟩
      · simp only [List.length_cons] at hlen; omega
      · rw [← hdash']
  · rintro ⟨n, hn, hdata⟩
    simp only [Bool.and_eq_true, beq_iff_eq, decide_eq_true_eq]
    rw [hdata]
    refine ⟨⟨by simp, ?_⟩, ?_⟩
    · simpa using isDashes_replicate n
    · simp; omega

theorem matchRight_iff (s : String) : matchRight s = true ↔ rightPat s := by
  unfold matchRight rightPat
  constructor
  · intro h
    simp only [Bool.and_eq_true, beq_iff_eq, decide_eq_true_eq] at h
    obtain ⟨⟨hlast, hdash⟩, hlen⟩ := h
    have hne : s.data ≠ [] := by
      intro h0; rw [h0] at hlen; simp at hlen
    have hgl : s.data.getLast hne = ':' := by
      rw [List.getLast?_eq_getLast _ hne] at hlast
      exact Option.some.inj hlast
    have hsplit : s.data.dropLast ++ [':'] = s.data := by
      rw [← hgl]; exact List.dropLast_append_getLast hne
    have hdash' : s.data.dropLast = List.replicate s.data.dropLast.length '-' := by
      rw [← isDashes_iff]; exact hdash
    refine ⟨s.data.dropLast.length, ?_, ?_⟩
    · have := List.length_dropLast s.data
      omega
    · conv_lhs => rw [← hsplit]
      rw [← hdash']
  · rintro ⟨n, hn, hdata⟩
    simp only [Bool.and_eq_true, beq_iff_eq, decide_eq_true_eq]
    rw [hdata]
    refine ⟨⟨List.getLast?_concat _, ?_⟩, ?_⟩
    · rw [List.dropLast_concat]
      exact isDashes_replicate n
    · simp; omega

theorem alignSpec_inferAlign (s : String) : alignSpec s (inferAlign s) := by
  unfold inferAlign alignSpec
  by_cases hc : matchCenter s = true
  · rw [if_pos hc]
    exact Or.inl ⟨(matchCenter_iff s).mp hc, rfl⟩
  · rw [if_neg hc]
    have hc' : ¬ centerPat s := fun h => hc ((matchCenter_iff s).mpr h)
    by_cases hl : matchLeft s = true
    · rw [if_pos hl]
      exact Or.inr (Or.inl ⟨hc', (matchLeft_iff s).mp hl, rfl⟩)
    · rw [if_neg hl]
      have hl' : ¬ leftPat s := fun h => hl ((matchLeft_iff s).mpr h)
      by_cases hr : matchRight s = true
      · rw [if_pos hr]
        exact Or.inr (Or.inr (Or.inl ⟨hc', hl', (matchRight_iff s).mp hr, rfl⟩))
      · rw [if_neg hr]
        exact Or.inr (Or.inr (Or.inr
          ⟨hc', hl', fun h => hr ((matchRight_iff s).mpr h), rfl⟩))

/-- C6: for a valid table and an in-range column `i`, the alignment the
formatter uses for column `i` is computed from the corresponding cell
of row 1 (the separator row) by the ordered regex tests: `^:-+:$` →
center, else `^:-+$` → left, else `^-+:$` → right, else left. -/
theorem C6_alignment_inference (md : String) (i : Nat)
    (hl : 2 ≤ (tableLines md).length) (hv : tableValid md = true)
    (hi : i < colCountOf md) :
    (alignmentsOf md).getD i Align.left
      = inferAlign (((cleanedRowsOf md).getD 1 []).getD i "") ∧
    alignSpec (((cleanedRowsOf md).getD 1 []).getD i "")
      ((alignmentsOf md).getD i Align.left) := by
  have h1 : 1 < (cleanedRowsOf md).length := by
    rw [cleanedRowsOf_length]; omega
  have hrow1 : (cleanedRowsOf md).getD 1 [] ∈ cleanedRowsOf md := by
    rw [List.getD_eq_getElem _ _ h1]
    exact List.getElem_mem h1
  have hlen1 : ((cleanedRowsOf md).getD 1 []).length = colCountOf md := by
    have := (List.all_eq_true.mp hv) _ hrow1
    simpa using this
  have hi1 : i < ((cleanedRowsOf md).getD 1 []).length := by omega
  have hmap : (alignmentsOf md).getD i Align.left
      = inferAlign (((cleanedRowsOf md).getD 1 []).getD i "") := by
    unfold alignmentsOf
    rw [List.getD_eq_getElem _ _ (by simpa using hi1), List.getElem_map,
        List.getD_eq_getElem _ _ hi1]
  exact ⟨hmap, hmap ▸ alignSpec_inferAlign _⟩

/-- Witness for C6 at a concrete table with center and right markers. -/
theorem C6_alignment_inference_witness :
    (2 ≤ (tableLines "|a|b|\n|:--:|---:|\n|1|2|").length) ∧
    (tableValid "|a|b|\n|:--:|---:|\n|1|2|" = true) ∧
    (0 < colCountOf "|a|b|\n|:--:|---:|\n|1|2|") ∧
    ((alignmentsOf "|a|b|\n|:--:|---:|\n|1|2|").getD 0 Align.left
        = inferAlign (((cleanedRowsOf "|a|b|\n|:--:|---:|\n|1|2|").getD 1 []).getD 0 "") ∧
     alignSpec (((cleanedRowsOf "|a|b|\n|:--:|---:|\n|1|2|").getD 1 []).getD 0 "")
        ((alignmentsOf "|a|b|\n|:--:|---:|\n|1|2|").getD 0 Align.left)) :=
  ⟨by decide, by decide, by decide,
    C6_alignment_inference "|a|b|\n|:--:|---:|\n|1|2|" 0
      (by decide) (by decide) (by decide)⟩
theorem splitData_append_cons (sep : Char) (p rest : List Char) (hp : sep ∉ p) :
    splitData sep (p ++ sep :: rest) = p :: splitData sep rest := by
  induction p with
  | nil => simp [splitData]
  | cons c cs ih =>
    have hc : ¬ (c = sep) := fun h => hp (by rw [h]; exact List.mem_cons_self sep cs)
    simp only [List.cons_append, splitData, if_neg hc, List.append_eq]
    rw [ih (fun h => hp (List.mem_cons_of_mem c h))]

theorem splitData_no_sep (sep : Char) (l : List Char) (h : sep ∉ l) :
    splitData sep l = [l] := by
  induction l with
  | nil => rfl
  | cons c cs ih =>
    have hc : ¬ (c = sep) := fun hh => h (by rw [hh]; exact List.mem_cons_self sep cs)
    simp only [splitData, if_neg hc,
      ih (fun hh => h (List.mem_cons_of_mem c hh))]

theorem splitData_flatten (sep : Char) (L : List (List Char))
    (h : ∀ p ∈ L, sep ∉ p) :
    splitData sep ((L.map (fun p => p ++ [sep])).flatten) = L ++ [[]] := by
  induction L with
  | nil => rfl
  | cons p t ih =>
    simp only [List.map_cons, List.flatten_cons]
    rw [show (p ++ [sep]) ++ ((t.map (fun q => q ++ [sep])).flatten)
          = p ++ sep :: ((t.map (fun q => q ++ [sep])).flatten) by simp]
    rw [splitData_append_cons sep p _ (h p (List.mem_cons_self p t))]
    rw [ih (fun q hq => h q (List.mem_cons_of_mem p hq))]
    rfl

theorem mem_flatten_replicate {n : Nat} {x : List Char} {c : Char}
    (h : c ∈ (List.replicate n x).flatten) : c ∈ x := by
  rw [List.mem_flatten] at h
  obtain ⟨l, hl, hc⟩ := h
  rwa [List.eq_of_mem_replicate hl] at hc

theorem map_mk_data (L : List String) : L.map (fun s => String.mk s.data) = L := by
  induction L with
  | nil => rfl
  | cons a t ih => simp only [List.map_cons, ih]

theorem flatten_terminated_getLast (M : List (List Char)) (hM : M ≠ []) (c : Char) :
    ((M.map (fun p => p ++ [c])).flatten).getLast? = some c := by
  induction M with
  | nil => exact absurd rfl hM
  | cons x t ih =>
    cases t with
    | nil => simp [List.getLast?_concat]
    | cons y s =>
      have hne : (((y :: s).map (fun p => p ++ [c])).flatten) ≠ [] := by
        intro h0
        have h1 := ih (by simp)
        rw [h0] at h1
        simp at h1
      rw [List.map_cons, List.flatten_cons]
      rw [List.getLast?_append_of_ne_nil _ hne]
      exact ih (by simp)

theorem one_le_effCount (o : Option String) : 1 ≤ effCount o := by
  unfold effCount
  have h1 := le_max_left (1 : Int)
    (match jsParseInt (o.getD "2") with
     | none => 2
     | some n => if n = 0 then 2 else n)
  omega

theorem alignCharOf_cases (a : String) :
    alignCharOf a = ":---" ∨ alignCharOf a = "---:" ∨ alignCharOf a = ":---:" := by
  unfold alignCharOf
  split
  · exact Or.inl rfl
  · split
    · exact Or.inr (Or.inl rfl)
    · exact Or.inr (Or.inr rfl)

theorem sepSeg_shape (a : String) :
    ∃ inner : List Char, (" " ++ alignCharOf a ++ " |").data = inner ++ ['|']
      ∧ '|' ∉ inner ∧ '\n' ∉ inner := by
  rcases alignCharOf_cases a with h | h | h <;> rw [h]
  · exact ⟨[' ', ':', '-', '-', '-', ' '], by decide, by decide, by decide⟩
  · exact ⟨[' ', '-', '-', '-', ':', ' '], by decide, by decide, by decide⟩
  · exact ⟨[' ', ':', '-', '-', '-', ':', ' '], by decide, by decide, by decide⟩

theorem genLine_data (c : Nat) (seg : String) :
    (genLine c seg).data = '|' :: (List.replicate c seg.data).flatten := by
  have h : ("|" : String).data = ['|'] := rfl
  simp [genLine, String.data_append, h]

theorem cellSegs_genLine (c : Nat) (seg : String) (inner : List Char)
    (hseg : seg.data = inner ++ ['|']) (hinner : '|' ∉ inner) :
    (cellSegs (genLine c seg)).length = c := by
  have hflat : (List.replicate c seg.data).flatten
      = ((List.replicate c inner).map (fun p => p ++ ['|'])).flatten := by
    rw [hseg, List.map_replicate]
  have hsplit : splitData '|' (genLine c seg).data
      = [] :: (List.replicate c inner ++ [[]]) := by
    rw [genLine_data, hflat]
    have hstep : splitData '|'
        ('|' :: ((List.replicate c inner).map (fun p => p ++ ['|'])).flatten)
        = [] :: splitData '|'
            (((List.replicate c inner).map (fun p => p ++ ['|'])).flatten) := by
      simp [splitData]
    rw [hstep, splitData_flatten '|' (List.replicate c inner)
        (fun p hp => by rw [List.eq_of_mem_replicate hp]; exact hinner)]
  unfold cellSegs jsSplit
  rw [hsplit]
  simp

theorem generate_data_eq (rowsIn colsIn alignIn : Option String) :
    (generateMarkdownTable rowsIn colsIn alignIn).data
      = (((genTableLines (effCount rowsIn) (effCount colsIn)
            (alignIn.getD "center")).map String.data).map
          (fun p => p ++ ['\n'])).flatten := by
  have hnl : ("\n" : String).data = ['\n'] := rfl
  simp [generateMarkdownTable, genTableLines, String.data_append, hnl,
    List.map_replicate]

/-- C7: for all generator inputs (with `r`, `c` the normalized row and
column counts, which are always ≥ 1), the output splits on newlines
into `r + 2` pieces whose last piece is empty — i.e. exactly `r + 1`
newline-terminated lines and a trailing newline — and every line has
exactly `c` pipe-delimited cell segments. -/
theorem C7_generate_shape (rowsIn colsIn alignIn : Option String) :
    ((jsSplit (generateMarkdownTable rowsIn colsIn alignIn) '\n').length
        = effCount rowsIn + 2) ∧
    ((jsSplit (generateMarkdownTable rowsIn colsIn alignIn) '\n').getLast?
        = some "") ∧
    (∀ line ∈ (jsSplit (generateMarkdownTable rowsIn colsIn alignIn) '\n').dropLast,
        (cellSegs line).length = effCount colsIn) ∧
    ((generateMarkdownTable rowsIn colsIn alignIn).data.getLast? = some '\n') := by
  obtain ⟨inner, hseg, hpin, hnin⟩ := sepSeg_shape (alignIn.getD "center")
  have hnoNl : ∀ s ∈ genTableLines (effCount rowsIn) (effCount colsIn)
      (alignIn.getD "center"), '\n' ∉ s.data := by
    intro s hs
    have hgen : ∀ seg : String, '\n' ∉ seg.data
        → '\n' ∉ (genLine (effCount colsIn) seg).data := by
      intro seg hseg2
      rw [genLine_data]
      intro hmem
      rcases List.mem_cons.mp hmem with h1 | h1
      · exact absurd h1 (by decide)
      · exact hseg2 (mem_flatten_replicate h1)
    rcases List.mem_cons.mp hs with h1 | h1
    · subst h1; exact hgen _ (by decide)
    · rcases List.mem_cons.mp h1 with h2 | h2
      · subst h2
        apply hgen
        rw [hseg]
        intro hm
        rcases List.mem_append.mp hm with h3 | h3
        · exact hnin h3
        · simp at h3
      · rw [List.eq_of_mem_replicate h2]
        exact hgen _ (by decide)
  have hsplitAll : splitData '\n'
      (generateMarkdownTable rowsIn colsIn alignIn).data
      = ((genTableLines (effCount rowsIn) (effCount colsIn)
          (alignIn.getD "center")).map String.data) ++ [[]] := by
    rw [generate_data_eq]
    exact splitData_flatten '\n' _
      (fun p hp => by
        obtain ⟨s, hsmem, hsd⟩ := List.mem_map.mp hp
        rw [← hsd]
        exact hnoNl s hsmem)
  have hjs : jsSplit (generateMarkdownTable rowsIn colsIn alignIn) '\n'
      = genTableLines (effCount rowsIn) (effCount colsIn)
          (alignIn.getD "center") ++ [""] := by
    unfold jsSplit
    rw [hsplitAll]
    rw [List.map_append, List.map_map]
    simp only [Function.comp_def]
    rw [map_mk_data]
    rfl
  have hr := one_le_effCount rowsIn
  refine ⟨?_, ?_, ?_, ?_⟩
  · rw [hjs]
    simp [genTableLines]
    omega
  · rw [hjs]
    exact List.getLast?_concat _
  · rw [hjs, List.dropLast_concat]
    intro line hline
    rcases List.mem_cons.mp hline with h1 | h1
    · subst h1
      exact cellSegs_genLine _ _ [' '] (by decide) (by decide)
    · rcases List.mem_cons.mp h1 with h2 | h2
      · subst h2
        exact cellSegs_genLine _ _ inner hseg hpin
      · rw [List.eq_of_mem_replicate h2]
        exact cellSegs_genLine _ _ [' '] (by decide) (by decide)
  · rw [generate_data_eq]
    exact flatten_terminated_getLast _ (by simp [genTableLines]) '\n'
theorem jsRepeat_eq (s : String) (n : Int) (h : 0 ≤ n) :
    jsRepeat s n = some (String.mk ((List.replicate n.toNat s.data).flatten)) := by
  unfold jsRepeat
  rw [if_neg (by omega)]

theorem padCell_eq (text : String) (width : Nat) (h : text.length ≤ width) :
    padCell text width
      = some (String.mk
          ((List.replicate (Int.fdiv ((width : Int) - (text.length : Int)) 2).toNat
              (" " : String).data).flatten)
          ++ text
          ++ String.mk
          ((List.replicate (((width : Int) - (text.length : Int))
              - Int.fdiv ((width : Int) - (text.length : Int)) 2).toNat
              (" " : String).data).flatten)) := by
  have hspace : (0 : Int) ≤ (width : Int) - (text.length : Int) := by omega
  have hleft : 0 ≤ Int.fdiv ((width : Int) - (text.length : Int)) 2 :=
    Int.fdiv_nonneg hspace (by norm_num)
  have hfd := Int.fdiv_eq_ediv ((width : Int) - (text.length : Int))
    (show (0:Int) ≤ 2 by norm_num)
  have hright : 0 ≤ ((width : Int) - (text.length : Int))
      - Int.fdiv ((width : Int) - (text.length : Int)) 2 := by
    rw [hfd]; omega
  simp only [padCell]
  rw [jsRepeat_eq _ _ hleft, jsRepeat_eq _ _ hright]

theorem padCell_isSome (text : String) (width : Nat) (h : text.length ≤ width) :
    (padCell text width).isSome = true := by
  rw [padCell_eq text width h]
  rfl

theorem isSome_map_opt {α β : Type} (f : α → β) (o : Option α) :
    (o.map f).isSome = o.isSome := by
  cases o <;> rfl

theorem sepCell_isSome (a : Align) (len : Nat) (h : 1 ≤ len) :
    (sepCell a len).isSome = true := by
  have hfd := Int.fdiv_eq_ediv ((len : Int) - 1) (show (0:Int) ≤ 2 by norm_num)
  rcases a with _ | _ | _
  · simp only [sepCell]
    rw [jsRepeat_eq _ _ (by omega), jsRepeat_eq _ _ (by omega)]
    rfl
  · simp only [sepCell]
    rw [jsRepeat_eq _ _ (by rw [hfd]; omega), jsRepeat_eq _ _ (by rw [hfd]; omega)]
    rfl
  · simp only [sepCell]
    rw [jsRepeat_eq _ _ (by omega), jsRepeat_eq _ _ (by omega)]
    rfl

theorem mapIdxOpt_isSome {α β : Type} (f : Nat → α → Option β) (d : α) :
    ∀ (i : Nat) (l : List α),
    (∀ j, j < l.length → (f (i + j) (l.getD j d)).isSome = true) →
    (mapIdxOpt f i l).isSome = true := by
  intro i l
  induction l generalizing i with
  | nil => intro _; rfl
  | cons a t ih =>
    intro h
    have h0 : (f i a).isSome = true := by
      have := h 0 (by simp)
      simpa using this
    have ht : (mapIdxOpt f (i + 1) t).isSome = true := by
      apply ih
      intro j hj
      have harith : i + (j + 1) = (i + 1) + j := by omega
      have := h (j + 1) (by simpa using Nat.succ_lt_succ hj)
      rw [harith] at this
      simpa [List.getD_cons_succ] using this
    simp only [mapIdxOpt]
    obtain ⟨b, hb⟩ := Option.isSome_iff_exists.mp h0
    obtain ⟨bs, hbs⟩ := Option.isSome_iff_exists.mp ht
    rw [hb, hbs]
    rfl

/-- C9 (amended): `format` is a total deterministic function; it
returns a string (never throws) on every input in which each column's
computed width is at least 1 — in particular on every structurally
invalid input, where it returns the original string.  (On a valid
table with an all-empty column of width 0 it throws, per the
counterexample.) -/
theorem C9_amended_totality (md : String)
    (h : ∀ i, i < colCountOf md → 1 ≤ colWidthOf md i) :
    (formatMarkdownTable md).isSome = true ∧
    (tableValid md = false → formatMarkdownTable md = some md) := by
  unfold formatMarkdownTable
  by_cases h2 : (tableLines md).length < 2
  · rw [if_pos h2]; exact ⟨rfl, fun _ => rfl⟩
  · rw [if_neg h2]
    by_cases hval : tableValid md = false
    · rw [if_pos hval]; exact ⟨rfl, fun _ => rfl⟩
    · rw [if_neg hval]
      have hvalid : tableValid md = true := by
        cases htv : tableValid md with
        | false => exact absurd htv hval
        | true => rfl
      refine ⟨?_, fun hcontra => absurd hcontra hval⟩
      rw [isSome_map_opt]
      apply mapIdxOpt_isSome (renderRow md) ([] : List String) 0 (cleanedRowsOf md)
      intro j hj
      rw [Nat.zero_add]
      have hmem : (cleanedRowsOf md).getD j [] ∈ cleanedRowsOf md := by
        rw [List.getD_eq_getElem _ _ hj]
        exact List.getElem_mem hj
      have hrl : ((cleanedRowsOf md).getD j []).length = colCountOf md := by
        have := List.all_eq_true.mp hvalid _ hmem
        simpa using this
      unfold renderRow
      rw [isSome_map_opt]
      apply mapIdxOpt_isSome _ ("" : String) 0 ((cleanedRowsOf md).getD j [])
      intro k hk
      rw [Nat.zero_add]
      have hkc : k < colCountOf md := by omega
      have hwidth : (colWidthsOf md).getD k 0 = colWidthOf md k := by
        unfold colWidthsOf
        rw [List.getD_eq_getElem _ _ (by simpa using hkc), List.getElem_map,
          List.getElem_range]
      unfold renderCell
      by_cases hrow1 : j = 1
      · rw [if_pos hrow1, hwidth]
        exact sepCell_isSome _ _ (h k hkc)
      · rw [if_neg hrow1, hwidth]
        apply padCell_isSome
        exact foldl_max_le _ (List.mem_map_of_mem
          (fun r => (r.getD k "").length) hmem) 0

/-- Witness for C9 (amended) at a concrete valid table with positive
column widths. -/
theorem C9_amended_totality_witness :
    (∀ i, i < colCountOf "|a|bb|\n|---|---|\n|1|22|"
        → 1 ≤ colWidthOf "|a|bb|\n|---|---|\n|1|22|" i) ∧
    ((formatMarkdownTable "|a|bb|\n|---|---|\n|1|22|").isSome = true ∧
     (tableValid "|a|bb|\n|---|---|\n|1|22|" = false
        → formatMarkdownTable "|a|bb|\n|---|---|\n|1|22|"
            = some "|a|bb|\n|---|---|\n|1|22|")) :=
  ⟨by decide, C9_amended_totality "|a|bb|\n|---|---|\n|1|22|" (by decide)⟩
theorem dropHeadEmpty_subset (row : List String) : dropHeadEmpty row ⊆ row := by
  unfold dropHeadEmpty
  split
  · exact fun y hy => List.mem_cons_of_mem _ hy
  · exact fun y hy => hy

theorem dropTailEmpty_subset (r : List String) : dropTailEmpty r ⊆ r := by
  unfold dropTailEmpty
  split
  · exact (List.dropLast_sublist r).subset
  · exact fun y hy => hy

theorem cleanRow_subset (row : List String) : cleanRow row ⊆ row := by
  unfold cleanRow
  exact fun y hy => dropHeadEmpty_subset row (dropTailEmpty_subset _ hy)

theorem sep_not_mem_splitData (sep : Char) (l : List Char) :
    ∀ p ∈ splitData sep l, sep ∉ p := by
  induction l with
  | nil =>
    intro p hp
    simp only [splitData, List.mem_singleton] at hp
    subst hp
    simp
  | cons c cs ih =>
    intro p hp
    simp only [splitData] at hp
    by_cases hc : c = sep
    · rw [if_pos hc] at hp
      rcases List.mem_cons.mp hp with h1 | h1
      · subst h1; simp
      · exact ih p h1
    · rw [if_neg hc] at hp
      rcases hs : splitData sep cs with _ | ⟨t, ts⟩
      · exact absurd hs (splitData_ne_nil sep cs)
      · rw [hs] at hp
        rcases List.mem_cons.mp hp with h1 | h1
        · subst h1
          intro hmem
          rcases List.mem_cons.mp hmem with h2 | h2
          · exact hc h2.symm
          · exact ih t (by rw [hs]; exact List.mem_cons_self t ts) h2
        · exact ih p (by rw [hs]; exact List.mem_cons_of_mem t h1)

theorem mem_of_mem_splitData (sep : Char) (l : List Char) :
    ∀ p ∈ splitData sep l, ∀ c ∈ p, c ∈ l := by
  induction l with
  | nil =>
    intro p hp c hc
    simp only [splitData, List.mem_singleton] at hp
    subst hp
    simp at hc
  | cons a cs ih =>
    intro p hp c hc
    simp only [splitData] at hp
    by_cases ha : a = sep
    · rw [if_pos ha] at hp
      rcases List.mem_cons.mp hp with h1 | h1
      · subst h1; simp at hc
      · exact List.mem_cons_of_mem a (ih p h1 c hc)
    · rw [if_neg ha] at hp
      rcases hs : splitData sep cs with _ | ⟨t, ts⟩
      · exact absurd hs (splitData_ne_nil sep cs)
      · rw [hs] at hp
        rcases List.mem_cons.mp hp with h1 | h1
        · subst h1
          rcases List.mem_cons.mp hc with h2 | h2
          · subst h2; exact List.mem_cons_self c cs
          · exact List.mem_cons_of_mem a
              (ih t (by rw [hs]; exact List.mem_cons_self t ts) c h2)
        · exact List.mem_cons_of_mem a
            (ih p (by rw [hs]; exact List.mem_cons_of_mem t h1) c hc)

theorem mem_trimData {l : List Char} {c : Char} (h : c ∈ trimData l) : c ∈ l := by
  unfold trimData at h
  rw [List.mem_reverse] at h
  have h1 := List.dropWhile_sublist (l := (l.dropWhile isWs).reverse) isWs |>.subset h
  rw [List.mem_reverse] at h1
  exact (List.dropWhile_sublist isWs).subset h1

theorem splitData_jsJoin (sepc : Char) (sepStr : String)
    (hs : sepStr.data = [sepc]) (L : List String) (hL : L ≠ [])
    (h : ∀ p ∈ L, sepc ∉ p.data) :
    splitData sepc (jsJoin sepStr L).data = L.map String.data := by
  induction L with
  | nil => exact absurd rfl hL
  | cons a t ih =>
    cases t with
    | nil =>
      simp only [jsJoin, List.map_cons, List.map_nil]
      exact splitData_no_sep sepc a.data (h a (List.mem_cons_self a []))
    | cons b t2 =>
      simp only [jsJoin]
      rw [show ((a ++ sepStr ++ jsJoin sepStr (b :: t2)).data)
            = a.data ++ sepc :: (jsJoin sepStr (b :: t2)).data by
          simp [String.data_append, hs]]
      rw [splitData_append_cons sepc a.data _ (h a (List.mem_cons_self a _))]
      rw [ih (by simp) (fun p hp => h p (List.mem_cons_of_mem a hp))]
      rfl

theorem mapIdxOpt_eq_some {α β : Type} (f : Nat → α → Option β) (da : α) (db : β) :
    ∀ (i : Nat) (l : List α) (bs : List β),
    mapIdxOpt f i l = some bs →
    bs.length = l.length ∧
    ∀ j, j < l.length → f (i + j) (l.getD j da) = some (bs.getD j db) := by
  intro i l
  induction l generalizing i with
  | nil =>
    intro bs h
    simp only [mapIdxOpt] at h
    have hbs : bs = [] := (Option.some.inj h).symm
    subst hbs
    exact ⟨rfl, fun j hj => absurd hj (by simp)⟩
  | cons a t ih =>
    intro bs h
    simp only [mapIdxOpt] at h
    rcases hfa : f i a with _ | b
    · rw [hfa] at h; simp at h
    · rw [hfa] at h
      rcases hmt : mapIdxOpt f (i + 1) t with _ | ts
      · rw [hmt] at h; simp at h
      · rw [hmt] at h
        have hbs : bs = b :: ts := (Option.some.inj h).symm
        subst hbs
        obtain ⟨hlen, hall⟩ := ih (i + 1) ts hmt
        refine ⟨by simp [hlen], ?_⟩
        intro j hj
        cases j with
        | zero =>
          simpa using hfa
        | succ k =>
          have hk : k < t.length := by simpa using hj
          have harith : i + (k + 1) = (i + 1) + k := by omega
          rw [harith]
          simpa [List.getD_cons_succ] using hall k hk

theorem flatten_replicate_singleton (n : Nat) (c : Char) :
    (List.replicate n ([c] : List Char)).flatten = List.replicate n c := by
  induction n with
  | zero => rfl
  | succ m ih => simp [List.replicate_succ, ih]

theorem jsRepeat_mem {s t : String} {n : Int} (h : jsRepeat s n = some t)
    {c : Char} (hc : c ∈ t.data) : c ∈ s.data := by
  unfold jsRepeat at h
  split at h
  · exact absurd h (by simp)
  · have ht : t = String.mk ((List.replicate n.toNat s.data).flatten) :=
      (Option.some.inj h).symm
    subst ht
    exact mem_flatten_replicate hc
theorem dropWhile_dropWhile (p : Char → Bool) (l : List Char) :
    (l.dropWhile p).dropWhile p = l.dropWhile p := by
  induction l with
  | nil => rfl
  | cons c t ih =>
    by_cases hc : p c = true
    · rw [List.dropWhile_cons, if_pos hc]
      exact ih
    · rw [List.dropWhile_cons, if_neg hc, List.dropWhile_cons, if_neg hc]

theorem head?_dropWhile_not (p : Char → Bool) (l : List Char) :
    ∀ c, (l.dropWhile p).head? = some c → p c = false := by
  induction l with
  | nil => intro c h; simp at h
  | cons a t ih =>
    intro c h
    by_cases ha : p a = true
    · rw [List.dropWhile_cons, if_pos ha] at h
      exact ih c h
    · rw [List.dropWhile_cons, if_neg ha] at h
      simp only [List.head?_cons, Option.some.injEq] at h
      rw [← h]
      simpa using ha

theorem getLast?_dropWhile (p : Char → Bool) (l : List Char)
    (h : l.dropWhile p ≠ []) : (l.dropWhile p).getLast? = l.getLast? := by
  induction l with
  | nil => simp at h
  | cons a t ih =>
    by_cases ha : p a = true
    · rw [List.dropWhile_cons, if_pos ha] at h ⊢
      rw [ih h]
      have ht : t ≠ [] := by
        intro h0; rw [h0] at h; simp at h
      rw [getLast?_cons_ne_nil a t ht]
    · rw [List.dropWhile_cons, if_neg ha]

theorem dropWhile_eq_self_of_head (p : Char → Bool) (l : List Char)
    (h : ∀ c, l.head? = some c → p c = false) : l.dropWhile p = l := by
  cases l with
  | nil => rfl
  | cons a t =>
    rw [List.dropWhile_cons, if_neg]
    simp [h a rfl]

theorem trimData_idem (l : List Char) : trimData (trimData l) = trimData l := by
  by_cases hnil : trimData l = []
  · rw [hnil]; rfl
  · have hA : (trimData l).dropWhile isWs = trimData l := by
      apply dropWhile_eq_self_of_head
      intro c hc
      unfold trimData at hc
      rw [List.head?_reverse] at hc
      have hne : ((l.dropWhile isWs).reverse.dropWhile isWs) ≠ [] := by
        intro h0
        apply hnil
        unfold trimData
        rw [h0]
        rfl
      rw [getLast?_dropWhile isWs _ hne, List.getLast?_reverse] at hc
      exact head?_dropWhile_not isWs _ c hc
    have hstep : trimData (trimData l)
        = (((trimData l).dropWhile isWs).reverse.dropWhile isWs).reverse := rfl
    rw [hstep, hA]
    have hR : (trimData l).reverse = (l.dropWhile isWs).reverse.dropWhile isWs := by
      unfold trimData
      rw [List.reverse_reverse]
    rw [hR, dropWhile_dropWhile]
    rfl

theorem dropWhile_replicate_sp (b : Nat) (l : List Char) :
    (List.replicate b ' ' ++ l).dropWhile isWs = l.dropWhile isWs := by
  induction b with
  | zero => rfl
  | succ n ih =>
    rw [List.replicate_succ, List.cons_append, List.dropWhile_cons,
      if_pos (by decide)]
    exact ih

theorem trimData_pad (a b : Nat) (l : List Char) :
    trimData (List.replicate a ' ' ++ l ++ List.replicate b ' ') = trimData l := by
  have hfront : ∀ (x : List Char),
      trimData (List.replicate a ' ' ++ x) = trimData x := by
    intro x
    unfold trimData
    rw [dropWhile_replicate_sp]
  rw [List.append_assoc, hfront]
  -- now: trimData (l ++ replicate b ' ') = trimData l
  by_cases hl : l.dropWhile isWs = []
  · unfold trimData
    rw [List.dropWhile_append, hl]
    simp only [List.isEmpty_nil, if_true]
    rw [show (List.replicate b ' ').dropWhile isWs = [] by
      have := dropWhile_replicate_sp b []
      simpa using this]
  · unfold trimData
    rw [List.dropWhile_append, if_neg (by simp [hl])]
    rw [List.reverse_append, List.reverse_replicate, dropWhile_replicate_sp]
theorem renderLine_data (cells : List String) (hne : cells ≠ []) :
    ("| " ++ jsJoin " | " cells ++ " |").data
      = '|' :: (((cells.map (fun c => ' ' :: c.data ++ [' '])).map
          (fun p => p ++ ['|'])).flatten) := by
  have h1 : ("| " : String).data = ['|', ' '] := rfl
  have h2 : (" |" : String).data = [' ', '|'] := rfl
  have h3 : (" | " : String).data = [' ', '|', ' '] := rfl
  induction cells with
  | nil => exact absurd rfl hne
  | cons c t ih =>
    cases t with
    | nil =>
      simp [jsJoin, String.data_append, h1, h2]
    | cons c2 t2 =>
      have hih := ih (by simp)
      simp only [jsJoin, String.data_append, h1, h2, h3, List.map_cons,
        List.flatten_cons, List.cons_append, List.nil_append,
        List.append_assoc] at hih ⊢
      injection hih with _ htail
      rw [← htail]

theorem cellSegs_renderLine (cells : List String) (hne : cells ≠ [])
    (hp : ∀ c ∈ cells, '|' ∉ c.data) :
    cellSegs ("| " ++ jsJoin " | " cells ++ " |")
      = cells.map (fun c => String.mk (' ' :: c.data ++ [' '])) := by
  unfold cellSegs jsSplit
  rw [renderLine_data cells hne]
  have hnp : ∀ p ∈ cells.map (fun c => ' ' :: c.data ++ [' ']), '|' ∉ p := by
    intro p hpm
    obtain ⟨cc, hcc, hccp⟩ := List.mem_map.mp hpm
    rw [← hccp]
    intro hmem
    rcases List.mem_cons.mp hmem with hx | hx
    · exact absurd hx (by decide)
    · rcases List.mem_append.mp hx with hy | hy
      · exact hp cc hcc hy
      · simp at hy
  have hstep : splitData '|'
      ('|' :: (((cells.map (fun c => ' ' :: c.data ++ [' '])).map
          (fun p => p ++ ['|'])).flatten))
      = [] :: splitData '|'
          (((cells.map (fun c => ' ' :: c.data ++ [' '])).map
            (fun p => p ++ ['|'])).flatten) := by
    simp [splitData]
  rw [hstep, splitData_flatten '|' _ hnp]
  simp [List.map_append, List.map_map, List.dropLast_concat, Function.comp_def]

theorem sepCell_chars {a : Align} {len : Nat} {s : String}
    (h : sepCell a len = some s) {c : Char} (hc : c ∈ s.data) :
    c = ':' ∨ c = '-' := by
  simp only [sepCell] at h
  generalize hl : jsRepeat "-" (if a = Align.right then (len : Int) - 1
      else if a = Align.center then Int.fdiv ((len : Int) - 1) 2 else 0) = ol at h
  generalize hr : jsRepeat "-" ((len : Int) - 1
      - (if a = Align.right then (len : Int) - 1
         else if a = Align.center then Int.fdiv ((len : Int) - 1) 2 else 0)) = orr at h
  rcases ol with _ | ls
  · simp at h
  · rcases orr with _ | rs
    · simp at h
    · have hs : s = (if a = Align.left then ":" else "-") ++ ls
          ++ (if a = Align.right then ":" else "-") ++ rs := (Option.some.inj h).symm
      subst hs
      simp only [String.data_append, List.mem_append] at hc
      have hedge : ∀ (t : String), (t = ":" ∨ t = "-")
          → ∀ d ∈ t.data, d = ':' ∨ d = '-' := by
        rintro t (rfl | rfl) d hd
        · simp at hd; exact Or.inl hd
        · simp at hd; exact Or.inr hd
      have hedge1 : ∀ d ∈ (if a = Align.left then (":" : String) else "-").data,
          d = ':' ∨ d = '-' := by
        apply hedge
        split
        · exact Or.inl rfl
        · exact Or.inr rfl
      have hedge2 : ∀ d ∈ (if a = Align.right then (":" : String) else "-").data,
          d = ':' ∨ d = '-' := by
        apply hedge
        split
        · exact Or.inl rfl
        · exact Or.inr rfl
      rcases hc with ((hx | hx) | hx) | hx
      · exact hedge1 c hx
      · exact Or.inr (by have := jsRepeat_mem hl hx; simpa using this)
      · exact hedge2 c hx
      · exact Or.inr (by have := jsRepeat_mem hr hx; simpa using this)

theorem padCell_mem {text : String} {width : Nat} {s : String}
    (h : padCell text width = some s) {c : Char} (hc : c ∈ s.data) :
    c = ' ' ∨ c ∈ text.data := by
  simp only [padCell] at h
  generalize hl : jsRepeat " "
    (Int.fdiv ((width : Int) - (text.length : Int)) 2) = ol at h
  generalize hr : jsRepeat " " (((width : Int) - (text.length : Int))
      - Int.fdiv ((width : Int) - (text.length : Int)) 2) = orr at h
  rcases ol with _ | ls
  · simp at h
  · rcases orr with _ | rs
    · simp at h
    · have hs : s = ls ++ text ++ rs := (Option.some.inj h).symm
      subst hs
      simp only [String.data_append, List.mem_append] at hc
      rcases hc with (hx | hx) | hx
      · exact Or.inl (by have := jsRepeat_mem hl hx; simpa using this)
      · exact Or.inr hx
      · exact Or.inl (by have := jsRepeat_mem hr hx; simpa using this)

theorem cell_chars (md : String) {row : List String} (hrow : row ∈ cleanedRowsOf md)
    {x : String} (hx : x ∈ row) : '\n' ∉ x.data ∧ '|' ∉ x.data := by
  unfold cleanedRowsOf at hrow
  obtain ⟨line, hline, hlr⟩ := List.mem_map.mp hrow
  rw [← hlr] at hx
  have hx3 : x ∈ parseRow line := cleanRow_subset _ hx
  unfold parseRow at hx3
  obtain ⟨y, hy, hyx⟩ := List.mem_map.mp hx3
  unfold jsSplit at hy
  obtain ⟨p, hp, hpy⟩ := List.mem_map.mp hy
  have hxdata : x.data = trimData p := by
    rw [← hyx, ← hpy]
    rfl
  have hpsub : ∀ d ∈ p, d ∈ line.data := by
    intro d hd
    have hd2 := mem_of_mem_splitData '|' (jsTrim line).data p hp d hd
    exact mem_trimData (by simpa [jsTrim] using hd2)
  have hlnl : '\n' ∉ line.data := by
    unfold tableLines jsSplit at hline
    obtain ⟨q, hq, hql⟩ := List.mem_map.mp hline
    rw [← hql]
    have := sep_not_mem_splitData '\n' (jsTrim md).data q hq
    simpa using this
  constructor
  · rw [hxdata]
    intro hmem
    exact hlnl (hpsub '\n' (mem_trimData hmem))
  · rw [hxdata]
    intro hmem
    exact sep_not_mem_splitData '|' (jsTrim line).data p hp (mem_trimData hmem)

theorem cell_trimmed (md : String) {row : List String} (hrow : row ∈ cleanedRowsOf md)
    {x : String} (hx : x ∈ row) : trimData x.data = x.data := by
  unfold cleanedRowsOf at hrow
  obtain ⟨line, hline, hlr⟩ := List.mem_map.mp hrow
  rw [← hlr] at hx
  have hx3 : x ∈ parseRow line := cleanRow_subset _ hx
  unfold parseRow at hx3
  obtain ⟨y, hy, hyx⟩ := List.mem_map.mp hx3
  rw [← hyx]
  show trimData (trimData y.data) = (jsTrim y).data
  rw [trimData_idem]
  rfl

theorem renderRow_eq_some {md : String} {idx : Nat} {row : List String} {line : String}
    (h : renderRow md idx row = some line) :
    ∃ cells, mapIdxOpt (renderCell md idx) 0 row = some cells
      ∧ line = "| " ++ jsJoin " | " cells ++ " |" := by
  unfold renderRow at h
  rcases hm : mapIdxOpt (renderCell md idx) 0 row with _ | cells
  · rw [hm] at h; simp at h
  · rw [hm] at h
    simp only [Option.map_some'] at h
    exact ⟨cells, rfl, (Option.some.inj h).symm⟩

theorem format_eq_some {md out : String}
    (hlen : 2 ≤ (tableLines md).length) (hval : tableValid md = true)
    (h : formatMarkdownTable md = some out) :
    ∃ frows, mapIdxOpt (renderRow md) 0 (cleanedRowsOf md) = some frows
      ∧ out = jsJoin "\n" frows := by
  unfold formatMarkdownTable at h
  rw [if_neg (by omega), if_neg (by simp [hval])] at h
  rcases hm : mapIdxOpt (renderRow md) 0 (cleanedRowsOf md) with _ | frows
  · rw [hm] at h; simp at h
  · rw [hm] at h
    simp only [Option.map_some'] at h
    exact ⟨frows, rfl, (Option.some.inj h).symm⟩
theorem mem_jsJoin {sep : String} {L : List String} {c : Char}
    (h : c ∈ (jsJoin sep L).data) : c ∈ sep.data ∨ ∃ p ∈ L, c ∈ p.data := by
  induction L with
  | nil => simp [jsJoin] at h
  | cons a t ih =>
    cases t with
    | nil => exact Or.inr ⟨a, by simp, h⟩
    | cons b t2 =>
      simp only [jsJoin, String.data_append, List.mem_append] at h
      rcases h with (h1 | h1) | h1
      · exact Or.inr ⟨a, by simp, h1⟩
      · exact Or.inl h1
      · rcases ih h1 with h2 | ⟨p, hp, hc⟩
        · exact Or.inl h2
        · exact Or.inr ⟨p, List.mem_cons_of_mem a hp, hc⟩

theorem colWidthsOf_getD (md : String) (i : Nat) (hi : i < colCountOf md) :
    (colWidthsOf md).getD i 0 = colWidthOf md i := by
  unfold colWidthsOf
  rw [List.getD_eq_getElem _ _ (by simpa using hi), List.getElem_map,
    List.getElem_range]

/-- C10 counterexample: the claim quantifies over every input that
passes structural validation, but on inputs with fewer than two
trimmed lines `format` returns the input itself untouched; `"\n"` is
such a valid input whose returned string has 2 newline-split pieces
versus 1 trimmed-input line, and `"x "` is one where the returned
(unformatted, untrimmed) text does not yield the cleaned cell back. -/
theorem C10_counterexample :
    tableValid "\n" = true ∧
    formatMarkdownTable "\n" = some "\n" ∧
    (jsSplit "\n" '\n').length = 2 ∧
    (tableLines "\n").length = 1 ∧
    tableValid "x " = true ∧
    formatMarkdownTable "x " = some "x " ∧
    0 < colCountOf "x " ∧
    ((cleanedRowsOf "x ").getD 0 []).getD 0 "" = "x" ∧
    jsTrim ((cellSegs ((jsSplit "x " '\n').getD 0 "")).getD 0 "")
      ≠ ((cleanedRowsOf "x ").getD 0 []).getD 0 "" := by
  decide

/-- C10 (amended): for a valid table input with at least two trimmed
lines on which `format` returns a string, the output has exactly as
many lines as the trimmed input, and for every row other than the
separator row (index 1) and every in-range column, trimming the
corresponding output cell segment recovers exactly the cleaned
(trimmed) input cell text — formatting never alters, reorders, drops,
or duplicates header or data cell content. -/
theorem C10_amended_content_preserved (md out : String)
    (hlen : 2 ≤ (tableLines md).length)
    (hval : tableValid md = true)
    (hout : formatMarkdownTable md = some out) :
    (jsSplit out '\n').length = (tableLines md).length ∧
    (∀ r, r < (tableLines md).length → r ≠ 1 →
      ∀ i, i < colCountOf md →
        jsTrim ((cellSegs ((jsSplit out '\n').getD r "")).getD i "")
          = ((cleanedRowsOf md).getD r []).getD i "") := by
  obtain ⟨frows, hm, hjoin⟩ := format_eq_some hlen hval hout
  obtain ⟨hflen, hfall⟩ :=
    mapIdxOpt_eq_some (renderRow md) [] "" 0 (cleanedRowsOf md) frows hm
  have hrowlen : ∀ j, j < (cleanedRowsOf md).length →
      ((cleanedRowsOf md).getD j []).length = colCountOf md := by
    intro j hj
    have hmem : (cleanedRowsOf md).getD j [] ∈ cleanedRowsOf md := by
      rw [List.getD_eq_getElem _ _ hj]; exact List.getElem_mem hj
    have := List.all_eq_true.mp hval _ hmem
    simpa using this
  have hline : ∀ j, j < (cleanedRowsOf md).length →
      ∃ cells, mapIdxOpt (renderCell md j) 0 ((cleanedRowsOf md).getD j [])
          = some cells ∧ frows.getD j "" = "| " ++ jsJoin " | " cells ++ " |" := by
    intro j hj
    have hr := hfall j hj
    rw [Nat.zero_add] at hr
    exact renderRow_eq_some hr
  have hcellchars : ∀ j, j < (cleanedRowsOf md).length →
      ∀ cells, mapIdxOpt (renderCell md j) 0 ((cleanedRowsOf md).getD j [])
          = some cells →
      ∀ x ∈ cells, '\n' ∉ x.data ∧ '|' ∉ x.data := by
    intro j hj cells hcells x hx
    obtain ⟨k, hk, hkx⟩ := List.mem_iff_getElem.mp hx
    obtain ⟨hclen, hcall⟩ :=
      mapIdxOpt_eq_some (renderCell md j) "" "" 0 _ cells hcells
    have hk2 : k < ((cleanedRowsOf md).getD j []).length := by omega
    have hcell := hcall k hk2
    rw [Nat.zero_add] at hcell
    have hxeq : cells.getD k "" = x := by
      rw [List.getD_eq_getElem _ _ hk]; exact hkx
    rw [hxeq] at hcell
    unfold renderCell at hcell
    have hmem : (cleanedRowsOf md).getD j [] ∈ cleanedRowsOf md := by
      rw [List.getD_eq_getElem _ _ hj]; exact List.getElem_mem hj
    by_cases hj1 : j = 1
    · rw [if_pos hj1] at hcell
      constructor
      · intro hmemx
        rcases sepCell_chars hcell hmemx with h | h <;> simp at h
      · intro hmemx
        rcases sepCell_chars hcell hmemx with h | h <;> simp at h
    · rw [if_neg hj1] at hcell
      have hinner : ((cleanedRowsOf md).getD j []).getD k ""
          ∈ (cleanedRowsOf md).getD j [] := by
        rw [List.getD_eq_getElem _ _ hk2]; exact List.getElem_mem hk2
      have hchain := cell_chars md hmem hinner
      constructor
      · intro hmemx
        rcases padCell_mem hcell hmemx with h | h
        · simp at h
        · exact hchain.1 h
      · intro hmemx
        rcases padCell_mem hcell hmemx with h | h
        · simp at h
        · exact hchain.2 h
  have hlinenl : ∀ p ∈ frows, '\n' ∉ p.data := by
    intro p hp
    obtain ⟨j, hj, hjp⟩ := List.mem_iff_getElem.mp hp
    have hj2 : j < (cleanedRowsOf md).length := by omega
    obtain ⟨cells, hcells, hfeq⟩ := hline j hj2
    have hpd : p = "| " ++ jsJoin " | " cells ++ " |" := by
      rw [← hjp, ← hfeq, List.getD_eq_getElem _ _ hj]
    rw [hpd]
    intro hmem
    simp only [String.data_append, List.mem_append] at hmem
    rcases hmem with (h2 | h2) | h2
    · exact absurd h2 (by decide)
    · rcases mem_jsJoin h2 with h3 | ⟨q, hq, hc⟩
      · exact absurd h3 (by decide)
      · exact (hcellchars j hj2 cells hcells q hq).1 hc
    · exact absurd h2 (by decide)
  have hfne : frows ≠ [] := by
    intro h0
    rw [h0] at hflen
    simp only [List.length_nil] at hflen
    exact cleanedRowsOf_ne_nil md (List.length_eq_zero.mp hflen.symm)
  have hsplit : jsSplit out '\n' = frows := by
    rw [hjoin]
    unfold jsSplit
    rw [splitData_jsJoin '\n' "\n" rfl frows hfne hlinenl, List.map_map]
    simp only [Function.comp_def]
    exact map_mk_data frows
  constructor
  · rw [hsplit, hflen, cleanedRowsOf_length]
  · intro r hr hr1 i hi
    have hr2 : r < (cleanedRowsOf md).length := by
      rw [cleanedRowsOf_length]; omega
    obtain ⟨cells, hcells, hfeq⟩ := hline r hr2
    rw [hsplit, hfeq]
    obtain ⟨hclen, hcall⟩ :=
      mapIdxOpt_eq_some (renderCell md r) "" "" 0 _ cells hcells
    have hrl := hrowlen r hr2
    have hclen2 : cells.length = colCountOf md := by omega
    have hne : cells ≠ [] := by
      intro h0
      rw [h0] at hclen2
      simp at hclen2
      omega
    have hp : ∀ c ∈ cells, '|' ∉ c.data :=
      fun c hc => (hcellchars r hr2 cells hcells c hc).2
    rw [cellSegs_renderLine cells hne hp]
    have hi2 : i < cells.length := by omega
    rw [List.getD_eq_getElem _ _ (by simpa using hi2), List.getElem_map]
    have hi3 : i < ((cleanedRowsOf md).getD r []).length := by omega
    have hcell := hcall i hi3
    rw [Nat.zero_add] at hcell
    unfold renderCell at hcell
    rw [if_neg hr1, colWidthsOf_getD md i hi] at hcell
    have hmem : (cleanedRowsOf md).getD r [] ∈ cleanedRowsOf md := by
      rw [List.getD_eq_getElem _ _ hr2]; exact List.getElem_mem hr2
    have htw : (((cleanedRowsOf md).getD r []).getD i "").length
        ≤ colWidthOf md i := by
      unfold colWidthOf
      exact foldl_max_le _ (List.mem_map_of_mem
        (fun rr => (rr.getD i "").length) hmem) 0
    set text := ((cleanedRowsOf md).getD r []).getD i "" with htextdef
    set W := colWidthOf md i with hWdef
    rw [padCell_eq _ _ htw] at hcell
    set A := (Int.fdiv ((W : Int) - (text.length : Int)) 2).toNat with hAdef
    set B := (((W : Int) - (text.length : Int))
        - Int.fdiv ((W : Int) - (text.length : Int)) 2).toNat with hBdef
    have hcb := Option.some.inj hcell
    have hidx : cells[i] = cells.getD i "" := by
      rw [List.getD_eq_getElem _ _ hi2]
    rw [hidx, ← hcb]
    have hsp : (" " : String).data = [' '] := rfl
    have htext := cell_trimmed md hmem (show text ∈ (cleanedRowsOf md).getD r [] by
      rw [htextdef, List.getD_eq_getElem _ _ hi3]
      exact List.getElem_mem hi3)
    have hseg : (' ' :: (String.mk ((List.replicate A (" " : String).data).flatten)
          ++ text ++ String.mk ((List.replicate B (" " : String).data).flatten)).data
          ++ [' '])
        = List.replicate (A + 1) ' ' ++ text.data ++ List.replicate (B + 1) ' ' := by
      simp [String.data_append, hsp, flatten_replicate_singleton,
        List.replicate_succ, List.replicate_succ', List.append_assoc]
      rw [← List.replicate_succ']
      exact List.replicate_succ ' ' B
    show String.mk (trimData (' '
        :: (String.mk ((List.replicate A (" " : String).data).flatten)
          ++ text ++ String.mk ((List.replicate B (" " : String).data).flatten)).data
          ++ [' '])) = text
    rw [hseg, trimData_pad, htext]

/-- Witness for C10 (amended) at a concrete valid table and its
formatted output. -/
theorem C10_amended_content_preserved_witness :
    (2 ≤ (tableLines "|a|bb|\n|---|---|\n|1|22|").length) ∧
    (tableValid "|a|bb|\n|---|---|\n|1|22|" = true) ∧
    (formatMarkdownTable "|a|bb|\n|---|---|\n|1|22|"
        = some "|  a  | bb  |\n| :--- | :--- |\n|  1  | 22  |") ∧
    ((jsSplit "|  a  | bb  |\n| :--- | :--- |\n|  1  | 22  |" '\n').length
        = (tableLines "|a|bb|\n|---|---|\n|1|22|").length ∧
     (∀ r, r < (tableLines "|a|bb|\n|---|---|\n|1|22|").length → r ≠ 1 →
       ∀ i, i < colCountOf "|a|bb|\n|---|---|\n|1|22|" →
         jsTrim ((cellSegs ((jsSplit "|  a  | bb  |\n| :--- | :--- |\n|  1  | 22  |"
             '\n').getD r "")).getD i "")
           = ((cleanedRowsOf "|a|bb|\n|---|---|\n|1|22|").getD r []).getD i "")) :=
  ⟨by decide, by decide, by decide,
    C10_amended_content_preserved "|a|bb|\n|---|---|\n|1|22|"
      "|  a  | bb  |\n| :--- | :--- |\n|  1  | 22  |"
      (by decide) (by decide) (by decide)⟩

end MdTable
